import Mathlib

/-!
Verification of the 3MF listing/extraction script
(octoprint_bambu_printer/printer/file_system/list_3mf_files.py).

The script is shallowly embedded: every procedure becomes a pure Lean
function.  External effects are made explicit:

* the local filesystem is a value of type FS (directories plus files);
* the FTPS download of one remote file is an oracle of type Option Bytes
  (none models the download call raising an exception);
* opening a downloaded file with ZipFile is an oracle
  parseZip : Bytes -> Option (List ZipEntry) (none models BadZipFile);
* a raised Python exception is an Except.error result;
* the Python with-statement around NamedTemporaryFile(delete=True) is the
  combinator withTempFile, which removes the temporary file on every exit
  path, mirroring the context-manager guarantee;
* log/print output is returned as lists of entries.  Log lines that carry
  only wall-clock timing values are outside the embedding (real time is
  not modelled); lines carrying data relevant to the claims are kept.

String helpers (basename, splitext, join, rstrip, replace, lower,
thousands-separator formatting) are re-implemented character by character
after the CPython semantics the script relies on (posixpath, str methods;
lower is ASCII, which covers the names involved).
-/

/-- Bytes of a file, as read and written by the script. -/
abbrev Bytes := List UInt8

/-- True when the first list begins with the second (Python str.startswith
on character lists). -/
def leadsWith : List Char → List Char → Bool
  | _, [] => true
  | [], _ :: _ => false
  | a :: as, b :: bs => a == b && leadsWith as bs

/-- Python s.startswith(p). -/
def strStarts (s p : String) : Bool := leadsWith s.toList p.toList

/-- Python s.endswith(p). -/
def strEnds (s p : String) : Bool := leadsWith s.toList.reverse p.toList.reverse

/-- True when pat occurs as a contiguous run inside hay (Python: pat in hay). -/
def hasSub (pat : List Char) : List Char → Bool
  | [] => leadsWith [] pat
  | c :: t => leadsWith (c :: t) pat || hasSub pat t

/-- Python p in s (substring containment). -/
def strContains (s p : String) : Bool := hasSub p.toList s.toList

/-- Python s.lower() (ASCII case folding, which covers the archive entry
names the script matches). -/
def lowerStr (s : String) : String := String.mk (s.toList.map Char.toLower)

/-- Python os.path.basename: everything after the last slash. -/
def pyBasename (p : String) : String :=
  String.mk ((p.toList.reverse.takeWhile (fun c => c != '/')).reverse)

/-- Python os.path.splitext(b)[0] for a basename b: drop the extension at
the last dot, unless every character before that dot is itself a dot
(CPython genericpath behaviour for leading dots). -/
def splitextRoot (b : String) : String :=
  let cs := b.toList
  match (cs.enum.filter (fun p => p.2 == '.')).getLast? with
  | none => b
  | some idc =>
      if (cs.take idc.1).any (fun c => c != '.') then String.mk (cs.take idc.1) else b

/-- Python os.path.join for two components (posix rules used by the script). -/
def joinPath (a b : String) : String :=
  if strStarts b "/" then b
  else if a == "" then b
  else if strEnds a "/" then a ++ b
  else a ++ "/" ++ b

/-- Python s.rstrip(slash): drop trailing slashes. -/
def rstripSlash (s : String) : String :=
  String.mk ((s.toList.reverse.dropWhile (fun c => c == '/')).reverse)

/-- Python s.replace(double-slash, single-slash): collapse each
left-to-right non-overlapping occurrence of two slashes into one. -/
def collapseDS : List Char → List Char
  | '/' :: '/' :: t => '/' :: collapseDS t
  | c :: t => c :: collapseDS t
  | [] => []

/-- Insert a comma between three-character groups of a reversed digit list
(helper for Python format specifier with a comma). -/
def commaGroup : List Char → List Char
  | a :: b :: c :: d :: rest => a :: b :: c :: ',' :: commaGroup (d :: rest)
  | l => l

/-- Python thousands-separator formatting of a natural number. -/
def commaFmt (n : Nat) : String :=
  String.mk ((commaGroup (toString n).toList.reverse).reverse)

/-- String repetition (Python string times nat). -/
def strRepeat (s : String) (n : Nat) : String :=
  String.mk (List.flatten (List.replicate n s.toList))

/-- Local filesystem state: the set of directories that exist and the files
with their contents.  The files list never holds two entries for one path
(writes shadow by filtering), and reads take the first match. -/
structure FS where
  dirs : List String
  files : List (String × Bytes)
deriving DecidableEq, Repr

/-- The empty filesystem. -/
def FS.empty : FS := ⟨[], []⟩

/-- Python os.makedirs(d, exist_ok=True), restricted to the one directory
the script creates (parent creation is irrelevant to the claims). -/
def FS.mkdirp (fs : FS) (d : String) : FS :=
  if fs.dirs.contains d then fs else ⟨d :: fs.dirs, fs.files⟩

/-- Whether a directory exists. -/
def FS.dirExists (fs : FS) (d : String) : Bool := fs.dirs.contains d

/-- Python open(p, wb) followed by a full write: the path now maps to c. -/
def FS.write (fs : FS) (p : String) (c : Bytes) : FS :=
  ⟨fs.dirs, (p, c) :: fs.files.filter (fun q => q.1 != p)⟩

/-- Deletion of one file (the temporary-file cleanup performed by the
context manager of NamedTemporaryFile). -/
def FS.removeFile (fs : FS) (p : String) : FS :=
  ⟨fs.dirs, fs.files.filter (fun q => q.1 != p)⟩

/-- Whether a file exists at a path. -/
def FS.fileExists (fs : FS) (p : String) : Bool := fs.files.any (fun q => q.1 == p)

/-- Content of the file at a path, when present. -/
def FS.readFile (fs : FS) (p : String) : Option Bytes :=
  (fs.files.find? (fun q => q.1 == p)).map (fun q => q.2)

/-- A Python exception raised by the script's external calls. -/
inductive PyError where
  | downloadError
  | badZipFile
deriving DecidableEq, Repr

/-- Python str(e) for the modelled exceptions (the BadZipFile text is the
one CPython produces; the download text stands for the various transport
exceptions, whose exact wording the claims do not depend on). -/
def PyError.msg : PyError → String
  | .downloadError => "download failed"
  | .badZipFile => "File is not a zip file"

/-- One entry of a ZIP archive: internal name plus raw byte content
(info.file_size is the content length). -/
structure ZipEntry where
  filename : String
  content : Bytes
deriving DecidableEq, Repr

/-- CPython zipfile name resolution: ZipFile builds NameToInfo by scanning
filelist in order and overwriting, so opening by name yields the last
entry carrying that name. -/
def getInfo (entries : List ZipEntry) (name : String) : Option ZipEntry :=
  entries.foldl (fun acc e => if e.filename == name then some e else acc) none

/-- Python with tempfile.NamedTemporaryFile(delete=True): the file exists
(initially empty) while the body runs, and is deleted on scope exit no
matter whether the body returned or raised. -/
def withTempFile {α : Type} (tmp : String) (fs : FS)
    (body : FS → Except PyError α × FS × List String) :
    Except PyError α × FS × List String :=
  let fs1 := fs.write tmp []
  let r := body fs1
  (r.1, r.2.1.removeFile tmp, r.2.2)

/-- The set of archive entries extract_required_files copies out (a Python
set literal; iteration order over it is arbitrary, and immaterial here
because the three basenames are distinct). -/
def requiredFiles : List String :=
  ["Metadata/plate_1.png", "Metadata/top_1.png", "Metadata/model_settings.config"]

/-- Output directory used by extract_required_files: the script directory
joined with the archive's base name. -/
def outputDirFor (scriptDir remote_path : String) : String :=
  joinPath scriptDir (splitextRoot (pyBasename remote_path))

/-- Extraction loop of extract_required_files over a list of wanted entry
names: each name present in the archive (per getInfo, the zipfile name
lookup) is written to the output directory under its basename; absent
names are skipped. -/
def copyList (output_dir : String) (entries : List ZipEntry) (l : List String) (acc : FS) :
    FS :=
  l.foldl (fun acc f =>
    match getInfo entries f with
    | some info => acc.write (joinPath output_dir (pyBasename f)) info.content
    | none => acc) acc

/-- extract_required_files(ftp, remote_path): create the output directory,
download the archive into a scoped temporary file, open it as a ZIP and
copy each member of requiredFiles that is present to the output directory
under its basename.  There is no local exception handler: a failing
download or a BadZipFile propagates to the caller.  The timing log lines
carry only wall-clock values and are not modelled. -/
def extract_required_files (remote_path scriptDir tmp : String)
    (dl : Option Bytes) (parseZip : Bytes → Option (List ZipEntry)) (fs : FS) :
    Except PyError Unit × FS × List String :=
  let output_dir := outputDirFor scriptDir remote_path
  let fs0 := fs.mkdirp output_dir
  withTempFile tmp fs0 (fun fs1 =>
    match dl with
    | none => (Except.error PyError.downloadError, fs1, [])
    | some raw =>
        let fs2 := fs1.write tmp raw
        match parseZip raw with
        | none => (Except.error PyError.badZipFile, fs2, [])
        | some entries =>
            let fs3 := copyList output_dir entries requiredFiles fs2
            (Except.ok (), fs3, []))

/-- Decoded in-memory image (PIL Image.open over a BytesIO of the entry
content; decoding itself is delegated to PIL and kept abstract as the
wrapped bytes). -/
structure PILImage where
  data : Bytes
deriving DecidableEq, Repr

/-- Thumbnail filter of extract_thumbnails: the lowered name contains the
word thumbnail and the lowered name ends with an image extension. -/
def isThumbnailName (filename : String) : Bool :=
  strContains (lowerStr filename) "thumbnail" &&
    (strEnds (lowerStr filename) ".png" || strEnds (lowerStr filename) ".jpg" ||
      strEnds (lowerStr filename) ".jpeg")

/-- extract_thumbnails(ftp, remote_path): download into a scoped temporary
file, then inside a try/except open the ZIP and decode every entry whose
name passes isThumbnailName, in namelist order; a failure opening the ZIP
is caught, printed, and an empty list is returned normally.  A failing
download happens before the try and therefore propagates. -/
def extract_thumbnails (remote_path tmp : String)
    (dl : Option Bytes) (parseZip : Bytes → Option (List ZipEntry)) (fs : FS) :
    Except PyError (List PILImage) × FS × List String :=
  withTempFile tmp fs (fun fs1 =>
    match dl with
    | none => (Except.error PyError.downloadError, fs1, [])
    | some raw =>
        let fs2 := fs1.write tmp raw
        match parseZip raw with
        | none =>
            (Except.ok [],
             fs2,
             ["  └── Error processing ZIP: " ++ PyError.badZipFile.msg])
        | some entries =>
            let thumbs := ((entries.map (fun e => e.filename)).filter isThumbnailName).map
              (fun n => PILImage.mk (match getInfo entries n with
                | some e => e.content
                | none => []))
            (Except.ok thumbs, fs2, []))

/-- Loop body of examine_3mf_structure for one archive entry: print name
and size, and when the name starts with the Metadata/ path and ends with
the lowercase png extension, copy the entry (resolved by name, as
zip_file.open does) into the thumbnails directory under its basename,
printing the destination; a blank line closes each entry. -/
def examineStep (thumbnails_dir : String) (entries : List ZipEntry)
    (acc : FS × List String) (info : ZipEntry) : FS × List String :=
  let out := acc.2 ++
    ["File: " ++ info.filename, "  Size: " ++ commaFmt info.content.length ++ " bytes"]
  if strStarts info.filename "Metadata/" && strEnds info.filename ".png" then
    let png_name := pyBasename info.filename
    let save_path := joinPath thumbnails_dir png_name
    let content := match getInfo entries info.filename with
      | some e => e.content
      | none => []
    (acc.1.write save_path content,
     out ++ ["  └── Extracted to: " ++ save_path, ""])
  else
    (acc.1, out ++ [""])

/-- examine_3mf_structure(ftp, remote_path): create the thumbnails
directory, download into a scoped temporary file, then inside a try/except
walk every archive entry with examineStep; a failure opening the ZIP is
caught and printed, and the routine returns normally. -/
def examine_3mf_structure (remote_path scriptDir tmp : String)
    (dl : Option Bytes) (parseZip : Bytes → Option (List ZipEntry)) (fs : FS) :
    Except PyError Unit × FS × List String :=
  let thumbnails_dir := joinPath scriptDir "thumbnails"
  let fs0 := fs.mkdirp thumbnails_dir
  withTempFile tmp fs0 (fun fs1 =>
    let out0 := ["Downloading " ++ remote_path ++ " to " ++ tmp ++ "..."]
    match dl with
    | none => (Except.error PyError.downloadError, fs1, out0)
    | some raw =>
        let fs2 := fs1.write tmp raw
        let out1 := out0 ++
          ["\nExamining 3MF structure and extracting thumbnails:", strRepeat "-" 60]
        match parseZip raw with
        | none =>
            (Except.ok (), fs2, out1 ++ ["Error examining ZIP: " ++ PyError.badZipFile.msg])
        | some entries =>
            let r := entries.foldl (examineStep thumbnails_dir entries) (fs2, out1)
            (Except.ok (), r.1, r.2))

/-- One remote file descriptor from the listing collaborator. -/
structure FileDesc where
  file_name : String
  path : String
deriving DecidableEq, Repr

/-- Log entries emitted by list_3mf_files, one constructor per logger call
site (wall-clock duration values are not modelled). -/
inductive LogEntry where
  | infoFound (count : Nat)
  | infoProcessing (name : String)
  | errorFailedToProcess (name msg : String)
  | errorConnection (msg : String)
  | infoTotalTime
deriving DecidableEq, Repr

/-- Outcomes of the external session calls made by list_3mf_files: the
scoped connect, the directory listing, and one processing run of
extract_required_files per file path. -/
structure SessionEnv where
  connect : Except PyError Unit
  listFiles : Except PyError (List FileDesc)
  processFile : String → Except PyError Unit

/-- list_3mf_files(host, access_code): connect inside a with-block, list
the 3MF files, and process each one, catching a per-file failure and
logging it with the file name; any failure escaping the with-block (the
connect or the listing) is caught at top level and logged as a connection
error.  The routine always returns normally. -/
def list_3mf_files (env : SessionEnv) : List LogEntry :=
  let body :=
    match env.connect with
    | Except.error e => [LogEntry.errorConnection e.msg]
    | Except.ok _ =>
        match env.listFiles with
        | Except.error e => [LogEntry.errorConnection e.msg]
        | Except.ok files =>
            LogEntry.infoFound files.length ::
              files.flatMap (fun f =>
                LogEntry.infoProcessing f.file_name ::
                  (match env.processFile f.path with
                   | Except.ok _ => []
                   | Except.error e => [LogEntry.errorFailedToProcess f.file_name e.msg]))
  body ++ [LogEntry.infoTotalTime]

/-- Actions of the entry point main(), in order. -/
inductive MainAction where
  | logError (msg : String)
  | logInfo (msg : String)
  | callListFiles (ip access : String)
deriving DecidableEq, Repr

/-- Body of main() with the two hard-coded configuration strings made
explicit: refuse to proceed when either equals its known placeholder,
otherwise log and invoke list_3mf_files. -/
def mainWith (ip access : String) : List MainAction :=
  if ip == "192.168.1.100" || access == "12345678" then
    [MainAction.logError "Please configure proper printer IP and access code!"]
  else
    [MainAction.logInfo ("Connecting to printer at " ++ ip),
     MainAction.callListFiles ip access]

/-- main() as written, with the concrete hard-coded values. -/
def mainEntry : List MainAction := mainWith "192.168.178.70" "33055062"

/-- Python slice s[:-n]: drop the last n characters (all of them when the
string is shorter than n). -/
def strDropRight (s : String) (n : Nat) : String :=
  String.mk (s.toList.take (s.toList.length - n))

/-- Indent computed by print_directory_tree for a recursion level. -/
def mkIndent (level : Nat) : String :=
  if level > 0 then strRepeat "  │   " (level - 1) ++ "  ├── " else ""

/-- Prefix used for the last sibling: the indent with its final four
characters replaced by the corner glyph (indent slice plus the glyph). -/
def lastSiblingPre (indent : String) : String := strDropRight indent 4 ++ "  └── "

/-- Child path construction of print_directory_tree: rstrip slashes, add
one slash and the name, collapse double slashes. -/
def childPath (path name : String) : String :=
  String.mk (collapseDS ((rstripSlash path ++ "/" ++ name).toList))

/-- One line printed by print_directory_tree: either an ordinary entry
line or the error line of the local exception handler (the indent and the
offending path are kept; the exception text is abstracted). -/
inductive OutLine where
  | entry (text : String)
  | errorRead (indent path : String)
deriving DecidableEq, Repr

/-- Whether a line is the error line of the exception handler. -/
def OutLine.isErrorRead : OutLine → Bool
  | .errorRead _ _ => true
  | .entry _ => false

mutual

/-- One remote node as the walker can observe it: the outcome of the size
query on it (some size means the query succeeds, none means it raises),
the date the date query returns, and the outcome of listing it (none
means list_files raises there). -/
inductive RemoteNode where
  | mk (size : Option Nat) (date : String) (listing : Option RemoteForest)

/-- The named children of a remote directory, in listing order. -/
inductive RemoteForest where
  | nil
  | cons (name : String) (node : RemoteNode) (rest : RemoteForest)

end

/-- Outcome of the size query on a node. -/
def RemoteNode.size : RemoteNode → Option Nat
  | .mk s _ _ => s

/-- Outcome of the date query on a node. -/
def RemoteNode.date : RemoteNode → String
  | .mk _ d _ => d

/-- Outcome of listing a node. -/
def RemoteNode.listing : RemoteNode → Option RemoteForest
  | .mk _ _ l => l

/-- View of a forest as a list of named children. -/
def RemoteForest.toList : RemoteForest → List (String × RemoteNode)
  | .nil => []
  | .cons n t rest => (n, t) :: rest.toList

/-- Forest built from a list of named children. -/
def forestOf : List (String × RemoteNode) → RemoteForest
  | [] => .nil
  | c :: rest => .cons c.1 c.2 (forestOf rest)

/-- Children classified as directories by the walker loop: exactly those
whose size query failed, in listing order (each child is carried with its
precomputed subtree output). -/
def dirsOf (subs : List (String × RemoteNode × List OutLine)) :
    List (String × RemoteNode × List OutLine) :=
  subs.filter (fun c => c.2.1.size.isNone)

/-- Children classified as files by the walker loop: exactly those whose
size query succeeded, in listing order, carried as name, size and date. -/
def filesOf (subs : List (String × RemoteNode × List OutLine)) :
    List (String × Nat × String) :=
  (subs.filter (fun c => c.2.1.size.isSome)).map
    (fun c => (c.1, c.2.1.size.getD 0, c.2.1.date))

/-- Order used on directory children: by name, comparing the character
sequences lexicographically by code point exactly as Python compares
strings (Python sorted over the listed items). -/
def dirLe (a b : String × RemoteNode × List OutLine) : Prop := a.1.toList ≤ b.1.toList

instance : DecidableRel dirLe := fun a b =>
  inferInstanceAs (Decidable (a.1.toList ≤ b.1.toList))

/-- Order used on file children: Python tuple comparison of (item, size),
name first and size as tie break. -/
def fileLe (a b : String × Nat × String) : Prop :=
  a.1.toList < b.1.toList ∨ (a.1.toList = b.1.toList ∧ a.2.1 ≤ b.2.1)

instance : DecidableRel fileLe := fun a b =>
  inferInstanceAs (Decidable (a.1.toList < b.1.toList ∨ (a.1.toList = b.1.toList ∧ a.2.1 ≤ b.2.1)))

instance : DecidableRel (fun a b : String => a.toList ≤ b.toList) := fun a b =>
  inferInstanceAs (Decidable (a.toList ≤ b.toList))

/-- Alphabetical sorting of a name list (what Python sorted does on the
directory items): lexicographic by code point. -/
def sortNames (l : List String) : List String :=
  List.insertionSort (fun a b => a.toList ≤ b.toList) l

/-- Body of print_directory_tree after a successful listing: classify the
children by size query, print the sorted directories first (each followed
by its subtree output), then the sorted files; the overall last sibling
gets the corner glyph, every other line the interior indent. -/
def assembleLevel (level : Nat) (subs : List (String × RemoteNode × List OutLine)) :
    List OutLine :=
  let indent := mkIndent level
  let dirs := dirsOf subs
  let files := filesOf subs
  let sortedDirs := List.insertionSort dirLe dirs
  let sortedFiles := List.insertionSort fileLe files
  let dirBlock := sortedDirs.enum.flatMap (fun ic =>
    let is_last := (ic.1 == dirs.length - 1) && files.isEmpty
    let dir_indent := if is_last then lastSiblingPre indent else indent
    OutLine.entry (dir_indent ++ ic.2.1 ++ "/") :: ic.2.2.2)
  let fileBlock := sortedFiles.enum.map (fun ic =>
    let is_last := ic.1 == files.length - 1
    let file_indent := if is_last then lastSiblingPre indent else indent
    OutLine.entry
      (file_indent ++ ic.2.1 ++ " (" ++ commaFmt ic.2.2.1 ++ " bytes, " ++ ic.2.2.2 ++ ")"))
  dirBlock ++ fileBlock

mutual

/-- print_directory_tree(ftp, path, level): on a listing failure print the
local error line; otherwise classify every child by its size query and
print the level with assembleLevel.  Subtree outputs are computed for each
child by printSubs; assembleLevel splices them only for directory-classified
children, matching the source, which recurses into directories only. -/
def printTree (path : String) (t : RemoteNode) (level : Nat) : List OutLine :=
  match t with
  | RemoteNode.mk _ _ none => [OutLine.errorRead (mkIndent level) path]
  | RemoteNode.mk _ _ (some children) => assembleLevel level (printSubs path level children)

/-- Subtree outputs for every child of a node at the given level. -/
def printSubs (path : String) (level : Nat) :
    RemoteForest → List (String × RemoteNode × List OutLine)
  | RemoteForest.nil => []
  | RemoteForest.cons n t rest =>
      (n, t, printTree (childPath path n) t (level + 1)) :: printSubs path level rest

end

mutual

/-- Whether every listing the walker can reach from this node succeeds
(children whose size query succeeds are never listed, hence exempt). -/
def noListFail : RemoteNode → Bool
  | RemoteNode.mk _ _ none => false
  | RemoteNode.mk _ _ (some children) => noListFailChildren children

/-- noListFail for each directory-classified child of a forest. -/
def noListFailChildren : RemoteForest → Bool
  | RemoteForest.nil => true
  | RemoteForest.cons _ t rest => (t.size.isSome || noListFail t) && noListFailChildren rest

end

/-- Claim-side thumbnail predicate, phrased after the specification: the
name contains the word thumbnail ignoring case, and the name ends with
one of the image extensions png, jpg, jpeg ignoring case. -/
def specThumbMatch (name : String) : Bool :=
  let low := name.toList.map Char.toLower
  hasSub "thumbnail".toList low &&
    ([".png", ".jpg", ".jpeg"].any (fun ext => leadsWith low.reverse ext.toList.reverse))

instance : IsTotal String (fun a b => a.toList ≤ b.toList) :=
  ⟨fun a b => le_total a.toList b.toList⟩

instance : IsTrans String (fun a b => a.toList ≤ b.toList) :=
  ⟨fun _ _ _ h1 h2 => le_trans h1 h2⟩

instance : IsTotal (String × Nat × String) fileLe := by
  constructor
  intro a b
  rcases lt_trichotomy a.1.toList b.1.toList with h | h | h
  · exact Or.inl (Or.inl h)
  · rcases le_total a.2.1 b.2.1 with h2 | h2
    · exact Or.inl (Or.inr ⟨h, h2⟩)
    · exact Or.inr (Or.inr ⟨h.symm, h2⟩)
  · exact Or.inr (Or.inl h)

instance : IsTrans (String × Nat × String) fileLe := by
  constructor
  intro a b c hab hbc
  rcases hab with h1 | ⟨h1, h1s⟩
  · rcases hbc with h2 | ⟨h2, _⟩
    · exact Or.inl (lt_trans h1 h2)
    · exact Or.inl (h2 ▸ h1)
  · rcases hbc with h2 | ⟨h2, h2s⟩
    · exact Or.inl (h1 ▸ h2)
    · exact Or.inr ⟨h1.trans h2, le_trans h1s h2s⟩

/-!
Helper lemmas about the filesystem model.
-/

theorem find?_filter_ne (l : List (String × Bytes)) {p q : String} (h : q ≠ p) :
    (l.filter (fun e => e.1 != p)).find? (fun e => e.1 == q) =
      l.find? (fun e => e.1 == q) := by
  induction l with
  | nil => rfl
  | cons a t ih =>
      by_cases hap : a.1 = p
      · simp [List.filter_cons, List.find?_cons, hap, Ne.symm h, ih]
      · by_cases haq : a.1 = q
        · simp [List.filter_cons, List.find?_cons, hap, haq, h]
        · simp [List.filter_cons, List.find?_cons, hap, haq, ih]

theorem FS.readFile_write_self (fs : FS) (p : String) (c : Bytes) :
    (fs.write p c).readFile p = some c := by
  simp [FS.write, FS.readFile, List.find?_cons]

theorem FS.readFile_write_ne (fs : FS) {p q : String} (c : Bytes) (h : q ≠ p) :
    (fs.write p c).readFile q = fs.readFile q := by
  have h2 : (p == q) = false := by simp [Ne.symm h]
  simp [FS.write, FS.readFile, List.find?_cons, h2, find?_filter_ne _ h]

theorem FS.readFile_removeFile_ne (fs : FS) {p q : String} (h : q ≠ p) :
    (fs.removeFile p).readFile q = fs.readFile q := by
  simp [FS.removeFile, FS.readFile, find?_filter_ne _ h]

theorem FS.readFile_removeFile_self (fs : FS) (p : String) :
    (fs.removeFile p).readFile p = none := by
  have hnone : (fs.files.filter (fun q => q.1 != p)).find? (fun q => q.1 == p) = none := by
    rw [List.find?_eq_none]
    intro x hx
    rw [List.mem_filter] at hx
    simpa using hx.2
  simp [FS.removeFile, FS.readFile, hnone]

theorem FS.fileExists_removeFile_self (fs : FS) (p : String) :
    (fs.removeFile p).fileExists p = false := by
  simp only [FS.removeFile, FS.fileExists, List.any_filter]
  rw [List.any_eq_false]
  intro x hx
  by_cases h : x.1 = p <;> simp [h]

theorem FS.dirs_write (fs : FS) (p : String) (c : Bytes) : (fs.write p c).dirs = fs.dirs := rfl

theorem FS.dirs_removeFile (fs : FS) (p : String) : (fs.removeFile p).dirs = fs.dirs := rfl

theorem FS.dirExists_mkdirp_self (fs : FS) (d : String) : (fs.mkdirp d).dirExists d = true := by
  simp only [FS.mkdirp, FS.dirExists]
  split
  · next h => exact h
  · next h => simp [List.contains_cons]

theorem copyList_dirs (output_dir : String) (entries : List ZipEntry) (l : List String)
    (acc : FS) : (copyList output_dir entries l acc).dirs = acc.dirs := by
  induction l generalizing acc with
  | nil => rfl
  | cons f t ih =>
      have hstep : copyList output_dir entries (f :: t) acc =
          copyList output_dir entries t (match getInfo entries f with
            | some info => acc.write (joinPath output_dir (pyBasename f)) info.content
            | none => acc) := rfl
      rw [hstep, ih]
      cases getInfo entries f <;> rfl

/-- C3: for each of the three download-and-process routines, the temporary
local file created for the download does not exist in the resulting
filesystem, whatever the download and archive-open oracles did, so on the
normal exit path and on every exceptional exit path alike. -/
theorem spec_c3_temp_file_cleanup
    (remote_path scriptDir tmp : String) (dl : Option Bytes)
    (parseZip : Bytes → Option (List ZipEntry)) (fs : FS) :
    (extract_required_files remote_path scriptDir tmp dl parseZip fs).2.1.fileExists tmp
        = false ∧
    (extract_thumbnails remote_path tmp dl parseZip fs).2.1.fileExists tmp = false ∧
    (examine_3mf_structure remote_path scriptDir tmp dl parseZip fs).2.1.fileExists tmp
        = false :=
  ⟨FS.fileExists_removeFile_self _ _, FS.fileExists_removeFile_self _ _,
    FS.fileExists_removeFile_self _ _⟩

theorem extract_required_files_dirs
    (remote_path scriptDir tmp : String) (dl : Option Bytes)
    (parseZip : Bytes → Option (List ZipEntry)) (fs : FS) :
    (extract_required_files remote_path scriptDir tmp dl parseZip fs).2.1.dirs =
      (fs.mkdirp (outputDirFor scriptDir remote_path)).dirs := by
  simp only [extract_required_files, withTempFile]
  cases dl with
  | none => rfl
  | some raw =>
      cases h : parseZip raw with
      | none => simp only [h]; rfl
      | some entries =>
          simp only [h, FS.dirs_removeFile]
          rw [copyList_dirs]
          rfl

/-- C10: extract_required_files creates the output directory, named after
the archive's base name, before the download, so the directory exists in
the resulting filesystem under every oracle outcome; in particular it
exists when the download raises and when the archive open raises, both of
which exit the routine with an error. -/
theorem spec_c10_output_dir_precreated
    (remote_path scriptDir tmp : String) (dl : Option Bytes) (raw : Bytes)
    (parseZip : Bytes → Option (List ZipEntry)) (fs : FS) :
    (extract_required_files remote_path scriptDir tmp dl parseZip fs).2.1.dirExists
        (outputDirFor scriptDir remote_path) = true ∧
    (extract_required_files remote_path scriptDir tmp none parseZip fs).1 =
      Except.error PyError.downloadError ∧
    (extract_required_files remote_path scriptDir tmp (some raw) (fun _ => none) fs).1 =
      Except.error PyError.badZipFile := by
  refine ⟨?_, rfl, rfl⟩
  have hd := extract_required_files_dirs remote_path scriptDir tmp dl parseZip fs
  have hm := FS.dirExists_mkdirp_self fs (outputDirFor scriptDir remote_path)
  simp only [FS.dirExists] at hm ⊢
  rw [hd]
  exact hm

/-- C8: the entry point guard.  For any configuration pair: when either
value equals its known placeholder, the action trace is exactly the one
error log entry and contains no connection or listing action; otherwise
the trace is the connect log line followed by the invocation of
list_3mf_files.  The hard-coded values of main() take the second branch. -/
theorem spec_c8_placeholder_guard (ip access : String) :
    ((ip = "192.168.1.100" ∨ access = "12345678") →
      mainWith ip access =
          [MainAction.logError "Please configure proper printer IP and access code!"] ∧
      ∀ a ∈ mainWith ip access, ∀ i c, a ≠ MainAction.callListFiles i c) ∧
    (ip ≠ "192.168.1.100" → access ≠ "12345678" →
      mainWith ip access =
        [MainAction.logInfo ("Connecting to printer at " ++ ip),
         MainAction.callListFiles ip access]) ∧
    mainEntry =
      [MainAction.logInfo "Connecting to printer at 192.168.178.70",
       MainAction.callListFiles "192.168.178.70" "33055062"] := by
  refine ⟨?_, ?_, by decide⟩
  · intro h
    have hc : (ip == "192.168.1.100" || access == "12345678") = true := by
      rcases h with h | h <;> simp [h]
    constructor
    · simp [mainWith, hc]
    · intro a ha i c
      simp only [mainWith, hc, if_true, List.mem_singleton] at ha
      simp [ha]
  · intro h1 h2
    have hc : (ip == "192.168.1.100" || access == "12345678") = false := by
      simp [h1, h2]
    simp [mainWith, hc]

theorem spec_c8_witness :
    mainWith "192.168.1.100" "secret" =
        [MainAction.logError "Please configure proper printer IP and access code!"] ∧
    ∀ a ∈ mainWith "192.168.1.100" "secret", ∀ i c, a ≠ MainAction.callListFiles i c :=
  (spec_c8_placeholder_guard "192.168.1.100" "secret").1 (Or.inl rfl)

/-- C5: with a successful connection and listing, every listed file is
attempted (its processing log entry is present) no matter how the
processing of any file turned out, and a file whose processing raised is
logged as failed with its own name; the routine reaches the remaining
files because the per-file handler recovers.  When the connection (or the
listing inside the session) raises, the whole operation ends with just
the connection-error log entry. -/
theorem spec_c5_per_file_isolation (env : SessionEnv) (files : List FileDesc) :
    (env.connect = Except.ok () → env.listFiles = Except.ok files →
      (∀ f ∈ files, LogEntry.infoProcessing f.file_name ∈ list_3mf_files env) ∧
      (∀ f ∈ files, ∀ e, env.processFile f.path = Except.error e →
        LogEntry.errorFailedToProcess f.file_name e.msg ∈ list_3mf_files env)) ∧
    (∀ e, env.connect = Except.error e →
      list_3mf_files env = [LogEntry.errorConnection e.msg, LogEntry.infoTotalTime]) := by
  constructor
  · intro hc hl
    constructor
    · intro f hf
      simp only [list_3mf_files, hc, hl, List.mem_append, List.mem_cons, List.mem_flatMap]
      exact Or.inl (Or.inr ⟨f, hf, Or.inl rfl⟩)
    · intro f hf e he
      simp only [list_3mf_files, hc, hl, List.mem_append, List.mem_cons, List.mem_flatMap]
      refine Or.inl (Or.inr ⟨f, hf, Or.inr ?_⟩)
      rw [he]
      simp
  · intro e hce
    simp [list_3mf_files, hce]

theorem spec_c5_witness :
    (⟨Except.ok (), Except.ok [⟨"a.3mf", "/a.3mf"⟩, ⟨"b.3mf", "/b.3mf"⟩],
        fun p => if p == "/a.3mf" then Except.error PyError.badZipFile else Except.ok ()⟩ :
      SessionEnv).connect = Except.ok () ∧
    LogEntry.infoProcessing "b.3mf" ∈
      list_3mf_files ⟨Except.ok (), Except.ok [⟨"a.3mf", "/a.3mf"⟩, ⟨"b.3mf", "/b.3mf"⟩],
        fun p => if p == "/a.3mf" then Except.error PyError.badZipFile else Except.ok ()⟩ :=
  ⟨rfl,
    ((spec_c5_per_file_isolation
        ⟨Except.ok (), Except.ok [⟨"a.3mf", "/a.3mf"⟩, ⟨"b.3mf", "/b.3mf"⟩],
          fun p => if p == "/a.3mf" then Except.error PyError.badZipFile else Except.ok ()⟩
        [⟨"a.3mf", "/a.3mf"⟩, ⟨"b.3mf", "/b.3mf"⟩]).1 rfl rfl).1
      ⟨"b.3mf", "/b.3mf"⟩ (by decide)⟩

theorem files_after_temp (fs : FS) (tmp : String) (raw : Bytes) :
    (((fs.write tmp []).write tmp raw).removeFile tmp).files = (fs.removeFile tmp).files := by
  simp [FS.write, FS.removeFile, List.filter_cons, List.filter_filter]

theorem FS.files_mkdirp (fs : FS) (d : String) : (fs.mkdirp d).files = fs.files := by
  simp only [FS.mkdirp]
  split <;> rfl

/-- C2 counterexample: with a downloaded file that is not a ZIP archive
(the parse oracle reports BadZipFile), extract_required_files does not
catch the archive-open error: it exits with the error, so the claim that
every extraction routine catches the error locally and returns without
raising is false on this input. -/
theorem spec_c2_counterexample :
    (extract_required_files "/cache/test.3mf" "/script" "/tmp/t0"
        (some [55, 55]) (fun _ => none) FS.empty).1 =
      Except.error PyError.badZipFile := rfl

/-- C2 as amended: for a malformed (non-ZIP) downloaded file,
extract_thumbnails catches the archive-open error locally, prints it, and
returns an empty list normally, leaving the files untouched; whereas
extract_required_files does not catch it, exiting with the BadZipFile
error while writing no file, its output directory (created before the
download) being left existing; the error is then caught by the caller
list_3mf_files, which logs the failure with the file's name and finishes
normally. -/
theorem spec_c2_amended (remote_path scriptDir tmp : String) (raw : Bytes) (fs : FS) :
    (extract_thumbnails remote_path tmp (some raw) (fun _ => none) fs).1 =
        Except.ok [] ∧
    (extract_thumbnails remote_path tmp (some raw) (fun _ => none) fs).2.2 =
        ["  └── Error processing ZIP: " ++ PyError.badZipFile.msg] ∧
    (extract_thumbnails remote_path tmp (some raw) (fun _ => none) fs).2.1.files =
        (fs.removeFile tmp).files ∧
    (extract_required_files remote_path scriptDir tmp (some raw) (fun _ => none) fs).1 =
        Except.error PyError.badZipFile ∧
    (extract_required_files remote_path scriptDir tmp (some raw)
          (fun _ => none) fs).2.1.dirExists (outputDirFor scriptDir remote_path) = true ∧
    (extract_required_files remote_path scriptDir tmp (some raw)
          (fun _ => none) fs).2.1.files = (fs.removeFile tmp).files ∧
    list_3mf_files
        ⟨Except.ok (), Except.ok [⟨"test.3mf", "/test.3mf"⟩],
          fun p => (extract_required_files p scriptDir tmp (some raw)
            (fun _ => none) fs).1⟩ =
      [LogEntry.infoFound 1, LogEntry.infoProcessing "test.3mf",
       LogEntry.errorFailedToProcess "test.3mf" PyError.badZipFile.msg,
       LogEntry.infoTotalTime] := by
  refine ⟨rfl, rfl, ?_, rfl, ?_, ?_, rfl⟩
  · exact files_after_temp fs tmp raw
  · have hd := extract_required_files_dirs remote_path scriptDir tmp (some raw)
      (fun _ => none) fs
    have hm := FS.dirExists_mkdirp_self fs (outputDirFor scriptDir remote_path)
    simp only [FS.dirExists] at hm ⊢
    rw [hd]
    exact hm
  · have h2 : ((fs.mkdirp (outputDirFor scriptDir remote_path)).removeFile tmp).files =
        (fs.removeFile tmp).files := by
      simp only [FS.removeFile, FS.files_mkdirp]
    exact (files_after_temp (fs.mkdirp (outputDirFor scriptDir remote_path)) tmp raw).trans h2

theorem FS.readFile_mkdirp (fs : FS) (d p : String) :
    (fs.mkdirp d).readFile p = fs.readFile p := by
  simp only [FS.readFile, FS.files_mkdirp]

theorem strAppend_cancel {a x y : String} (h : a ++ x = a ++ y) : x = y := by
  apply String.ext
  have h2 := congrArg String.data h
  simp only [String.data_append] at h2
  exact List.append_cancel_left h2

theorem joinPath_right_ne (a : String) {b c : String}
    (hb : strStarts b "/" = false) (hc : strStarts c "/" = false) (h : b ≠ c) :
    joinPath a b ≠ joinPath a c := by
  unfold joinPath
  rw [hb, hc]
  simp only [Bool.false_eq_true, if_false]
  split_ifs
  · exact h
  · intro he
    exact h (strAppend_cancel he)
  · intro he
    exact h (strAppend_cancel he)

theorem mem_requiredFiles {f : String} (h : f ∈ requiredFiles) :
    f = "Metadata/plate_1.png" ∨ f = "Metadata/top_1.png" ∨
      f = "Metadata/model_settings.config" := by
  simpa [requiredFiles] using h

theorem required_targets_inj (out : String) :
    ∀ g ∈ requiredFiles, ∀ f ∈ requiredFiles, g ≠ f →
      joinPath out (pyBasename g) ≠ joinPath out (pyBasename f) := by
  intro g hg f hf hne
  rcases mem_requiredFiles hg with rfl | rfl | rfl <;>
    rcases mem_requiredFiles hf with rfl | rfl | rfl <;>
      first
        | exact absurd rfl hne
        | exact joinPath_right_ne out (by decide) (by decide) (by decide)

theorem copyList_readFile_notin (output_dir : String) (entries : List ZipEntry)
    (l : List String) (acc : FS) (p : String)
    (h : ∀ f ∈ l, p ≠ joinPath output_dir (pyBasename f)) :
    (copyList output_dir entries l acc).readFile p = acc.readFile p := by
  induction l generalizing acc with
  | nil => rfl
  | cons f t ih =>
      have hstep : copyList output_dir entries (f :: t) acc =
          copyList output_dir entries t (match getInfo entries f with
            | some info => acc.write (joinPath output_dir (pyBasename f)) info.content
            | none => acc) := rfl
      rw [hstep, ih _ (fun x hx => h x (List.mem_cons_of_mem f hx))]
      cases hg : getInfo entries f
      · rfl
      · exact FS.readFile_write_ne acc _ (h f (List.mem_cons_self f t))

theorem copyList_readFile_unwritten (output_dir : String) (entries : List ZipEntry)
    (l : List String) (acc : FS) (p : String)
    (h : ∀ f ∈ l, p = joinPath output_dir (pyBasename f) → getInfo entries f = none) :
    (copyList output_dir entries l acc).readFile p = acc.readFile p := by
  induction l generalizing acc with
  | nil => rfl
  | cons f t ih =>
      have hstep : copyList output_dir entries (f :: t) acc =
          copyList output_dir entries t (match getInfo entries f with
            | some info => acc.write (joinPath output_dir (pyBasename f)) info.content
            | none => acc) := rfl
      rw [hstep, ih _ (fun x hx => h x (List.mem_cons_of_mem f hx))]
      cases hg : getInfo entries f with
      | none => rfl
      | some info =>
          have hne : p ≠ joinPath output_dir (pyBasename f) := by
            intro he
            have hcontra := h f (List.mem_cons_self f t) he
            rw [hg] at hcontra
            cases hcontra
          exact FS.readFile_write_ne acc _ hne

theorem copyList_readFile_written (output_dir : String) (entries : List ZipEntry)
    (l : List String) (acc : FS) (f : String) (info : ZipEntry)
    (hmem : f ∈ l) (hinfo : getInfo entries f = some info)
    (hinj : ∀ g ∈ l, g ≠ f →
      joinPath output_dir (pyBasename g) ≠ joinPath output_dir (pyBasename f)) :
    (copyList output_dir entries l acc).readFile (joinPath output_dir (pyBasename f)) =
      some info.content := by
  induction l generalizing acc with
  | nil => cases hmem
  | cons g t ih =>
      have hstep : copyList output_dir entries (g :: t) acc =
          copyList output_dir entries t (match getInfo entries g with
            | some i2 => acc.write (joinPath output_dir (pyBasename g)) i2.content
            | none => acc) := rfl
      by_cases hft : f ∈ t
      · rw [hstep]
        exact ih _ hft (fun x hx hne => hinj x (List.mem_cons_of_mem g hx) hne)
      · have hfg : f = g := by
          rcases List.mem_cons.mp hmem with h1 | h1
          · exact h1
          · exact absurd h1 hft
        subst hfg
        have hnot : ∀ x ∈ t,
            joinPath output_dir (pyBasename f) ≠ joinPath output_dir (pyBasename x) := by
          intro x hx
          have hxf : x ≠ f := fun he => hft (he ▸ hx)
          exact (hinj x (List.mem_cons_of_mem f hx) hxf).symm
        rw [hstep, copyList_readFile_notin output_dir entries t _ _ hnot]
        simp only [hinfo]
        exact FS.readFile_write_self acc _ info.content

/-- C1: for a successfully downloaded and opened archive, exactly the
members of the required set present in the archive are written to the
output directory named after the archive base name, each under its
basename with content identical to the archive entry the name denotes;
no path outside the required targets is changed (beyond the deleted
temporary file), and the target path of a required member absent from
the archive is not written either, so exactly the present members are
written. -/
theorem spec_c1_required_extraction
    (remote_path scriptDir tmp : String) (raw : Bytes) (entries : List ZipEntry) (fs : FS)
    (htmp : ∀ f ∈ requiredFiles,
      joinPath (outputDirFor scriptDir remote_path) (pyBasename f) ≠ tmp) :
    (extract_required_files remote_path scriptDir tmp (some raw)
        (fun _ => some entries) fs).1 = Except.ok () ∧
    (∀ f ∈ requiredFiles, ∀ info, getInfo entries f = some info →
      (extract_required_files remote_path scriptDir tmp (some raw)
          (fun _ => some entries) fs).2.1.readFile
          (joinPath (outputDirFor scriptDir remote_path) (pyBasename f)) =
        some info.content) ∧
    (∀ p, (∀ f ∈ requiredFiles,
        p ≠ joinPath (outputDirFor scriptDir remote_path) (pyBasename f)) →
      (extract_required_files remote_path scriptDir tmp (some raw)
          (fun _ => some entries) fs).2.1.readFile p = (fs.removeFile tmp).readFile p) ∧
    (∀ f ∈ requiredFiles, getInfo entries f = none →
      (extract_required_files remote_path scriptDir tmp (some raw)
          (fun _ => some entries) fs).2.1.readFile
          (joinPath (outputDirFor scriptDir remote_path) (pyBasename f)) =
        (fs.removeFile tmp).readFile
          (joinPath (outputDirFor scriptDir remote_path) (pyBasename f))) := by
  have h1 : (extract_required_files remote_path scriptDir tmp (some raw)
      (fun _ => some entries) fs).2.1 =
      (copyList (outputDirFor scriptDir remote_path) entries requiredFiles
        (((fs.mkdirp (outputDirFor scriptDir remote_path)).write tmp []).write tmp
          raw)).removeFile tmp := rfl
  refine ⟨rfl, ?_, ?_, ?_⟩
  · intro f hf info hinfo
    rw [h1, FS.readFile_removeFile_ne _ (htmp f hf)]
    exact copyList_readFile_written _ entries requiredFiles _ f info hf hinfo
      (fun g hg hne => required_targets_inj _ g hg f hf hne)
  · intro p hp
    rw [h1]
    by_cases hptmp : p = tmp
    · subst hptmp
      rw [FS.readFile_removeFile_self, FS.readFile_removeFile_self]
    · rw [FS.readFile_removeFile_ne _ hptmp,
        copyList_readFile_notin _ entries requiredFiles _ p hp,
        FS.readFile_write_ne _ _ hptmp, FS.readFile_write_ne _ _ hptmp,
        FS.readFile_mkdirp, FS.readFile_removeFile_ne _ hptmp]
  · intro f hf hnone
    have hcov : ∀ g ∈ requiredFiles,
        joinPath (outputDirFor scriptDir remote_path) (pyBasename f) =
          joinPath (outputDirFor scriptDir remote_path) (pyBasename g) →
        getInfo entries g = none := by
      intro g hg heq
      by_cases hgf : g = f
      · subst hgf
        exact hnone
      · exact absurd heq.symm (required_targets_inj _ g hg f hf hgf)
    rw [h1, FS.readFile_removeFile_ne _ (htmp f hf),
      copyList_readFile_unwritten _ entries requiredFiles _ _ hcov,
      FS.readFile_write_ne _ _ (htmp f hf), FS.readFile_write_ne _ _ (htmp f hf),
      FS.readFile_mkdirp, FS.readFile_removeFile_ne _ (htmp f hf)]

theorem spec_c1_witness :
    (∀ f ∈ requiredFiles,
      joinPath (outputDirFor "/script" "/cache/test.3mf") (pyBasename f) ≠ "/tmp/t1") ∧
    (extract_required_files "/cache/test.3mf" "/script" "/tmp/t1" (some [1])
        (fun _ => some [⟨"Metadata/plate_1.png", [9, 8]⟩]) FS.empty).2.1.readFile
        (joinPath (outputDirFor "/script" "/cache/test.3mf")
          (pyBasename "Metadata/plate_1.png")) = some [9, 8] ∧
    (extract_required_files "/cache/test.3mf" "/script" "/tmp/t1" (some [1])
        (fun _ => some [⟨"Metadata/plate_1.png", [9, 8]⟩]) FS.empty).2.1.readFile
        (joinPath (outputDirFor "/script" "/cache/test.3mf")
          (pyBasename "Metadata/top_1.png")) = none :=
  ⟨by decide,
    (spec_c1_required_extraction "/cache/test.3mf" "/script" "/tmp/t1" [1]
        [⟨"Metadata/plate_1.png", [9, 8]⟩] FS.empty (by decide)).2.1
      "Metadata/plate_1.png" (by decide) ⟨"Metadata/plate_1.png", [9, 8]⟩ rfl,
    ((spec_c1_required_extraction "/cache/test.3mf" "/script" "/tmp/t1" [1]
        [⟨"Metadata/plate_1.png", [9, 8]⟩] FS.empty (by decide)).2.2.2
      "Metadata/top_1.png" (by decide) rfl).trans (by decide)⟩

theorem toList_mk (l : List Char) : (String.mk l).toList = l := rfl

theorem isThumbnailName_eq_spec (name : String) :
    isThumbnailName name = specThumbMatch name := by
  simp only [isThumbnailName, specThumbMatch, strContains, strEnds, lowerStr, toList_mk,
    List.any_cons, List.any_nil, Bool.or_false, Bool.or_assoc]

/-- C7: extract_thumbnails succeeds on a downloaded archive and returns
exactly one decoded image per archive entry whose name matches the
case-insensitive thumbnail predicate, in the archive's entry-listing
order; entries not matching contribute nothing, and the code predicate
agrees with the claim-side predicate on every name. -/
theorem spec_c7_thumbnail_filter (remote_path tmp : String) (raw : Bytes)
    (entries : List ZipEntry) (fs : FS) :
    (∀ name, isThumbnailName name = specThumbMatch name) ∧
    ∃ imgs,
      (extract_thumbnails remote_path tmp (some raw) (fun _ => some entries) fs).1 =
        Except.ok imgs ∧
      imgs = (entries.filter (fun e => specThumbMatch e.filename)).map
          (fun e => PILImage.mk (match getInfo entries e.filename with
            | some e2 => e2.content
            | none => [])) ∧
      imgs.length = (entries.filter (fun e => specThumbMatch e.filename)).length := by
  have hf : entries.filter (isThumbnailName ∘ fun e => e.filename) =
      entries.filter (fun e => specThumbMatch e.filename) := by
    apply List.filter_congr
    intro a _
    exact isThumbnailName_eq_spec a.filename
  have hfm : ((entries.map (fun e => e.filename)).filter isThumbnailName).map
      (fun n => PILImage.mk (match getInfo entries n with
        | some e => e.content
        | none => [])) =
      (entries.filter (fun e => specThumbMatch e.filename)).map
        (fun e => PILImage.mk (match getInfo entries e.filename with
          | some e2 => e2.content
          | none => [])) := by
    rw [List.filter_map, List.map_map, hf]
    rfl
  refine ⟨isThumbnailName_eq_spec,
    ((entries.map (fun e => e.filename)).filter isThumbnailName).map
      (fun n => PILImage.mk (match getInfo entries n with
        | some e => e.content
        | none => [])), rfl, hfm, ?_⟩
  rw [hfm, List.length_map]

/-- C9: in examine_3mf_structure, an entry is written to the thumbnails
directory exactly when its name starts with the case-sensitive Metadata/
path and ends with the lowercase png extension, while every entry is
listed; names differing only in case fail the condition and leave the
filesystem unchanged, although the thumbnail predicate of
extract_thumbnails, being case-insensitive, accepts such names. -/
theorem spec_c9_metadata_png_case :
    (∀ (thumbnails_dir : String) (entries : List ZipEntry) (acc : FS × List String)
        (info : ZipEntry),
      (∃ rest, (examineStep thumbnails_dir entries acc info).2 =
        acc.2 ++ ["File: " ++ info.filename,
          "  Size: " ++ commaFmt info.content.length ++ " bytes"] ++ rest) ∧
      ((strStarts info.filename "Metadata/" && strEnds info.filename ".png") = true →
        (examineStep thumbnails_dir entries acc info).1 =
          acc.1.write (joinPath thumbnails_dir (pyBasename info.filename))
            (match getInfo entries info.filename with
              | some e => e.content
              | none => [])) ∧
      ((strStarts info.filename "Metadata/" && strEnds info.filename ".png") = false →
        (examineStep thumbnails_dir entries acc info).1 = acc.1)) ∧
    (strStarts "metadata/x.png" "Metadata/" && strEnds "metadata/x.png" ".png") = false ∧
    (strStarts "Metadata/x.PNG" "Metadata/" && strEnds "Metadata/x.PNG" ".png") = false ∧
    (strStarts "Metadata/a.png" "Metadata/" && strEnds "Metadata/a.png" ".png") = true ∧
    isThumbnailName "METADATA/THUMBNAIL.PNG" = true ∧
    (strStarts "METADATA/THUMBNAIL.PNG" "Metadata/" &&
      strEnds "METADATA/THUMBNAIL.PNG" ".png") = false := by
  refine ⟨?_, by decide, by decide, by decide, by decide, by decide⟩
  intro thumbnails_dir entries acc info
  refine ⟨?_, ?_, ?_⟩
  · by_cases h : (strStarts info.filename "Metadata/" && strEnds info.filename ".png") = true
    · exact ⟨["  └── Extracted to: " ++ joinPath thumbnails_dir (pyBasename info.filename),
        ""], by simp [examineStep, h, List.append_assoc]⟩
    · exact ⟨[""], by simp [examineStep, h, List.append_assoc]⟩
  · intro h
    simp [examineStep, h]
  · intro h
    simp [examineStep, h]

theorem spec_c9_witness :
    (strStarts "metadata/x.png" "Metadata/" && strEnds "metadata/x.png" ".png") = false ∧
    (examineStep "/script/thumbnails" [] (FS.empty, []) ⟨"metadata/x.png", [1]⟩).1 =
      (FS.empty, ([] : List String)).1 :=
  ⟨by decide,
    ((spec_c9_metadata_png_case.1 "/script/thumbnails" [] (FS.empty, [])
      ⟨"metadata/x.png", [1]⟩).2.2) (by decide)⟩

theorem toList_append (a b : String) : (a ++ b).toList = a.toList ++ b.toList :=
  String.data_append a b

theorem lastPre_len (s : String) :
    (lastSiblingPre s).toList.length = (s.toList.length - 4) + 6 := by
  show ((strDropRight s 4) ++ "  └── ").toList.length = _
  rw [toList_append]
  simp only [strDropRight, toList_mk, List.length_append, List.length_take]
  have h6 : ("  └── ").toList.length = 6 := by decide
  rw [h6]
  omega

theorem lastPre_ne_indent (level : Nat) :
    lastSiblingPre (mkIndent level) ≠ mkIndent level := by
  intro h
  have hlen := congrArg (fun s => s.toList.length) h
  simp only at hlen
  rw [lastPre_len] at hlen
  omega

theorem printSubs_forestOf (path : String) (level : Nat)
    (l : List (String × RemoteNode)) :
    printSubs path level (forestOf l) =
      l.map (fun c => (c.1, c.2, printTree (childPath path c.1) c.2 (level + 1))) := by
  induction l with
  | nil => rfl
  | cons c rest ih => simp [forestOf, printSubs, ih]

theorem orderedInsert_map {α β : Type} (r : β → β → Prop) [DecidableRel r]
    (r2 : α → α → Prop) [DecidableRel r2] (f : α → β)
    (hr : ∀ a b, r2 a b ↔ r (f a) (f b)) (a : α) (l : List α) :
    List.orderedInsert r (f a) (l.map f) = (List.orderedInsert r2 a l).map f := by
  induction l with
  | nil => rfl
  | cons b t ih =>
      simp only [List.map_cons, List.orderedInsert]
      by_cases h : r2 a b
      · rw [if_pos ((hr a b).mp h), if_pos h]
        simp
      · rw [if_neg (fun hc => h ((hr a b).mpr hc)), if_neg h]
        simp [ih]

theorem insertionSort_map {α β : Type} (r : β → β → Prop) [DecidableRel r]
    (r2 : α → α → Prop) [DecidableRel r2] (f : α → β)
    (hr : ∀ a b, r2 a b ↔ r (f a) (f b)) (l : List α) :
    List.insertionSort r (l.map f) = (List.insertionSort r2 l).map f := by
  induction l with
  | nil => rfl
  | cons b t ih =>
      simp only [List.map_cons, List.insertionSort, ih]
      exact orderedInsert_map r r2 f hr b (List.insertionSort r2 t)

theorem flatMap_map_comp {α β γ : Type} (f : α → β) (g : β → List γ) (l : List α) :
    (l.map f).flatMap g = l.flatMap (g ∘ f) := by
  induction l with
  | nil => rfl
  | cons b t ih => simp [ih]

theorem flatMap_singleton_map {α β : Type} (g : α → β) (l : List α) :
    l.flatMap (fun x => [g x]) = l.map g := by
  induction l with
  | nil => rfl
  | cons b t ih => simp [ih]

theorem mem_enum_snd {α : Type} {x : Nat × α} {l : List α} (h : x ∈ l.enum) : x.2 ∈ l := by
  obtain ⟨i, a⟩ := x
  obtain ⟨hi, ha⟩ := List.mem_enum h
  exact ha ▸ List.getElem_mem hi

theorem mem_assembleLevel {level : Nat} {subs : List (String × RemoteNode × List OutLine)}
    {l : OutLine} (h : l ∈ assembleLevel level subs) :
    l.isErrorRead = false ∨ ∃ c ∈ subs, c.2.1.size = none ∧ l ∈ c.2.2 := by
  simp only [assembleLevel] at h
  rcases List.mem_append.mp h with h1 | h1
  · rcases List.mem_flatMap.mp h1 with ⟨ic, hic, hl⟩
    rcases List.mem_cons.mp hl with rfl | hl2
    · exact Or.inl rfl
    · refine Or.inr ⟨ic.2, ?_, ?_, hl2⟩
      · have hmem : ic.2 ∈ List.insertionSort dirLe (dirsOf subs) := mem_enum_snd hic
        have hmem2 := (List.perm_insertionSort dirLe (dirsOf subs)).mem_iff.mp hmem
        exact (List.mem_filter.mp hmem2).1
      · have hmem : ic.2 ∈ List.insertionSort dirLe (dirsOf subs) := mem_enum_snd hic
        have hmem2 := (List.perm_insertionSort dirLe (dirsOf subs)).mem_iff.mp hmem
        have := (List.mem_filter.mp hmem2).2
        exact Option.isNone_iff_eq_none.mp this
  · rcases List.mem_map.mp h1 with ⟨ic, _, rfl⟩
    exact Or.inl rfl

mutual

theorem noErr_tree (t : RemoteNode) (path : String) (level : Nat)
    (h : noListFail t = true) : ∀ l ∈ printTree path t level, l.isErrorRead = false := by
  match t with
  | RemoteNode.mk sz dd none => exact absurd h (by simp [noListFail])
  | RemoteNode.mk sz dd (some f) =>
      intro l hl
      have hlc : l ∈ assembleLevel level (printSubs path level f) := hl
      rcases mem_assembleLevel hlc with hfalse | ⟨c, hc, hsz, hlc2⟩
      · exact hfalse
      · exact noErr_forest f path level (by simpa [noListFail] using h) c hc hsz l hlc2

theorem noErr_forest (f : RemoteForest) (path : String) (level : Nat)
    (h : noListFailChildren f = true) :
    ∀ c ∈ printSubs path level f, c.2.1.size = none →
      ∀ l ∈ c.2.2, l.isErrorRead = false := by
  match f with
  | RemoteForest.nil => intro c hc; exact absurd hc (by simp [printSubs])
  | RemoteForest.cons n t rest =>
      intro c hc hsz l hl
      have hparts : (t.size.isSome || noListFail t) = true ∧
          noListFailChildren rest = true := by
        simpa [noListFailChildren, Bool.and_eq_true] using h
      rcases List.mem_cons.mp hc with rfl | hc2
      · have hnone : t.size.isSome = false := by
          simp only at hsz
          simp [hsz]
        have hnl : noListFail t = true := by
          rcases Bool.or_eq_true_iff.mp hparts.1 with h2 | h2
          · exact absurd h2 (by simp [hnone])
          · exact h2
        exact noErr_tree t (childPath path n) (level + 1) hnl l hl
      · exact noErr_forest rest path level hparts.2 c hc2 hsz l hl

end

/-- C6: the walker loop classifies a listed child as a file exactly when
its size query succeeds, recording the returned size (and the child's
date), and as a directory exactly when the size query fails; and a size
query failure is never surfaced or printed as an error: as long as every
listing the walker performs succeeds, no error line appears in the
output, whatever the size queries did. -/
theorem spec_c6_size_query_classification :
    (∀ (subs : List (String × RemoteNode × List OutLine))
        (c : String × RemoteNode × List OutLine),
      (c ∈ dirsOf subs ↔ c ∈ subs ∧ c.2.1.size = none) ∧
      (∀ nm s d, (nm, s, d) ∈ filesOf subs ↔
        ∃ t out, (nm, t, out) ∈ subs ∧ t.size = some s ∧ t.date = d)) ∧
    (∀ (t : RemoteNode) (path : String) (level : Nat),
      noListFail t = true → ∀ l ∈ printTree path t level, l.isErrorRead = false) := by
  constructor
  · intro subs c
    constructor
    · rw [dirsOf, List.mem_filter, Option.isNone_iff_eq_none]
    · intro nm s d
      constructor
      · intro h
        rcases List.mem_map.mp h with ⟨c2, hc2, heq⟩
        have hsome := (List.mem_filter.mp hc2).2
        rcases Option.isSome_iff_exists.mp hsome with ⟨s0, hs0⟩
        obtain ⟨n2, t2, out2⟩ := c2
        simp only at hs0 hsome
        refine ⟨t2, out2, ?_, ?_, ?_⟩
        · have := (List.mem_filter.mp hc2).1
          have h1 : n2 = nm := congrArg Prod.fst heq
          exact h1 ▸ this
        · have h2 : t2.size.getD 0 = s := congrArg (fun x => x.2.1) heq
          rw [hs0] at h2 ⊢
          simp at h2
          rw [h2]
        · exact congrArg (fun x => x.2.2) heq
      · rintro ⟨t, out, hmem, hsz, hdate⟩
        apply List.mem_map.mpr
        refine ⟨(nm, t, out), List.mem_filter.mpr ⟨hmem, ?_⟩, ?_⟩
        · simp [hsz]
        · simp [hsz, hdate]
  · intro t path level h
    exact noErr_tree t path level h

theorem spec_c6_witness :
    noListFail (RemoteNode.mk none "dr" (some (RemoteForest.cons "a"
        (RemoteNode.mk (some 5) "dx" none) RemoteForest.nil))) = true ∧
    ∀ l ∈ printTree "/" (RemoteNode.mk none "dr" (some (RemoteForest.cons "a"
        (RemoteNode.mk (some 5) "dx" none) RemoteForest.nil))) 0,
      l.isErrorRead = false :=
  ⟨by decide,
    spec_c6_size_query_classification.2
      (RemoteNode.mk none "dr" (some (RemoteForest.cons "a"
        (RemoteNode.mk (some 5) "dx" none) RemoteForest.nil))) "/" 0 (by decide)⟩
theorem flatMap_eq_map_of_single {α β : Type} (h : α → List β) (h2 : α → β)
    (hh : ∀ x, h x = [h2 x]) (l : List α) : l.flatMap h = l.map h2 := by
  induction l with
  | nil => rfl
  | cons x t ih => simp [hh, ih]

theorem printTree_one_level
    (dirNames : List String) (fileEntries : List (String × Nat × String))
    (path : String) (level : Nat) (ddate rdate : String) (rsz : Option Nat) :
    printTree path (RemoteNode.mk rsz rdate (some (forestOf
      (dirNames.map (fun n => (n, RemoteNode.mk none ddate (some RemoteForest.nil))) ++
       fileEntries.map (fun fe => (fe.1, RemoteNode.mk (some fe.2.1) fe.2.2 none)))))) level =
    (sortNames dirNames).enum.map (fun ic =>
      OutLine.entry ((if (ic.1 == dirNames.length - 1) && fileEntries.isEmpty then
          lastSiblingPre (mkIndent level) else mkIndent level) ++ ic.2 ++ "/")) ++
    (List.insertionSort fileLe fileEntries).enum.map (fun ic =>
      OutLine.entry ((if ic.1 == fileEntries.length - 1 then
          lastSiblingPre (mkIndent level) else mkIndent level) ++ ic.2.1 ++ " (" ++
        commaFmt ic.2.2.1 ++ " bytes, " ++ ic.2.2.2 ++ ")")) := by
  have h0 : printTree path (RemoteNode.mk rsz rdate (some (forestOf
      (dirNames.map (fun n => (n, RemoteNode.mk none ddate (some RemoteForest.nil))) ++
       fileEntries.map (fun fe => (fe.1, RemoteNode.mk (some fe.2.1) fe.2.2 none)))))) level =
      assembleLevel level (printSubs path level (forestOf
        (dirNames.map (fun n => (n, RemoteNode.mk none ddate (some RemoteForest.nil))) ++
         fileEntries.map (fun fe => (fe.1, RemoteNode.mk (some fe.2.1) fe.2.2 none))))) := rfl
  rw [h0, printSubs_forestOf, List.map_append, List.map_map, List.map_map]
  show assembleLevel level
      (dirNames.map (fun n =>
        (n, RemoteNode.mk none ddate (some RemoteForest.nil), ([] : List OutLine))) ++
       fileEntries.map (fun fe => (fe.1, RemoteNode.mk (some fe.2.1) fe.2.2 none,
         [OutLine.errorRead (mkIndent (level + 1)) (childPath path fe.1)]))) = _
  have hdirs : dirsOf
      (dirNames.map (fun n =>
        (n, RemoteNode.mk none ddate (some RemoteForest.nil), ([] : List OutLine))) ++
       fileEntries.map (fun fe => (fe.1, RemoteNode.mk (some fe.2.1) fe.2.2 none,
         [OutLine.errorRead (mkIndent (level + 1)) (childPath path fe.1)]))) =
      dirNames.map (fun n =>
        (n, RemoteNode.mk none ddate (some RemoteForest.nil), ([] : List OutLine))) := by
    simp only [dirsOf, List.filter_append, List.filter_map]
    rw [show ((fun c : String × RemoteNode × List OutLine => c.2.1.size.isNone) ∘
        (fun n : String =>
          (n, RemoteNode.mk none ddate (some RemoteForest.nil), ([] : List OutLine)))) =
      (fun _ => true) from rfl]
    rw [show ((fun c : String × RemoteNode × List OutLine => c.2.1.size.isNone) ∘
        (fun fe : String × Nat × String => (fe.1, RemoteNode.mk (some fe.2.1) fe.2.2 none,
          [OutLine.errorRead (mkIndent (level + 1)) (childPath path fe.1)]))) =
      (fun _ => false) from rfl]
    rw [List.filter_true, List.filter_false, List.map_nil, List.append_nil]
  have hfiles : filesOf
      (dirNames.map (fun n =>
        (n, RemoteNode.mk none ddate (some RemoteForest.nil), ([] : List OutLine))) ++
       fileEntries.map (fun fe => (fe.1, RemoteNode.mk (some fe.2.1) fe.2.2 none,
         [OutLine.errorRead (mkIndent (level + 1)) (childPath path fe.1)]))) =
      fileEntries := by
    simp only [filesOf, List.filter_append, List.filter_map]
    rw [show ((fun c : String × RemoteNode × List OutLine => c.2.1.size.isSome) ∘
        (fun n : String =>
          (n, RemoteNode.mk none ddate (some RemoteForest.nil), ([] : List OutLine)))) =
      (fun _ => false) from rfl]
    rw [show ((fun c : String × RemoteNode × List OutLine => c.2.1.size.isSome) ∘
        (fun fe : String × Nat × String => (fe.1, RemoteNode.mk (some fe.2.1) fe.2.2 none,
          [OutLine.errorRead (mkIndent (level + 1)) (childPath path fe.1)]))) =
      (fun _ => true) from rfl]
    rw [List.filter_true, List.filter_false, List.map_nil, List.nil_append, List.map_map]
    rw [show ((fun c : String × RemoteNode × List OutLine =>
        (c.1, c.2.1.size.getD 0, c.2.1.date)) ∘
        (fun fe : String × Nat × String => (fe.1, RemoteNode.mk (some fe.2.1) fe.2.2 none,
          [OutLine.errorRead (mkIndent (level + 1)) (childPath path fe.1)]))) =
      id from rfl]
    rw [List.map_id]
  simp only [assembleLevel, hdirs, hfiles]
  rw [insertionSort_map dirLe (fun a b => a.toList ≤ b.toList)
    (fun n : String => (n, RemoteNode.mk none ddate (some RemoteForest.nil), ([] : List OutLine)))
    (fun a b => Iff.rfl) dirNames]
  simp only [List.length_map, List.enum_map, flatMap_map_comp]
  congr 1
  exact flatMap_eq_map_of_single _ _ (fun x => rfl) _

/-- C4: the tree walker prints, for every successfully listed directory
level, first the directory children then the file children, each group
in alphabetical order (code-point order on the names, as Python sorted
compares strings); the overall last sibling of the level carries the
corner glyph while interior siblings carry the plain indent, and the two
are distinct at every level.  The sorting used is indeed a sorted
permutation of each group.  In particular, for a root with an empty
directory dirA and a file fileA.3mf of 100 bytes, dirA/ is printed first
and fileA.3mf second with the last-sibling glyph; and in a nested tree
the subtree of a directory is printed immediately after its line, before
the following sibling (depth-first recursion). -/
theorem spec_c4_tree_order :
    (∀ (dirNames : List String) (fileEntries : List (String × Nat × String))
        (path : String) (level : Nat) (ddate rdate : String) (rsz : Option Nat),
      printTree path (RemoteNode.mk rsz rdate (some (forestOf
        (dirNames.map (fun n => (n, RemoteNode.mk none ddate (some RemoteForest.nil))) ++
         fileEntries.map (fun fe =>
           (fe.1, RemoteNode.mk (some fe.2.1) fe.2.2 none)))))) level =
      (sortNames dirNames).enum.map (fun ic =>
        OutLine.entry ((if (ic.1 == dirNames.length - 1) && fileEntries.isEmpty then
            lastSiblingPre (mkIndent level) else mkIndent level) ++ ic.2 ++ "/")) ++
      (List.insertionSort fileLe fileEntries).enum.map (fun ic =>
        OutLine.entry ((if ic.1 == fileEntries.length - 1 then
            lastSiblingPre (mkIndent level) else mkIndent level) ++ ic.2.1 ++ " (" ++
          commaFmt ic.2.2.1 ++ " bytes, " ++ ic.2.2.2 ++ ")"))) ∧
    (∀ l : List String,
      (sortNames l).Sorted (fun a b => a.toList ≤ b.toList) ∧ (sortNames l).Perm l) ∧
    (∀ fe : List (String × Nat × String),
      (List.insertionSort fileLe fe).Sorted fileLe ∧
        (List.insertionSort fileLe fe).Perm fe) ∧
    (∀ level : Nat, lastSiblingPre (mkIndent level) ≠ mkIndent level) ∧
    printTree "/" (RemoteNode.mk none "dr" (some (forestOf
      [("dirA", RemoteNode.mk none "dd" (some RemoteForest.nil)),
       ("fileA.3mf", RemoteNode.mk (some 100) "2024-01-01 12:00:00" none)]))) 0 =
      [OutLine.entry "dirA/",
       OutLine.entry "  └── fileA.3mf (100 bytes, 2024-01-01 12:00:00)"] ∧
    printTree "/" (RemoteNode.mk none "dr" (some (forestOf
      [("dirA", RemoteNode.mk none "dd" (some (forestOf
          [("b.txt", RemoteNode.mk (some 5) "D2" none)]))),
       ("fileA.3mf", RemoteNode.mk (some 100) "D1" none)]))) 0 =
      [OutLine.entry "dirA/",
       OutLine.entry "    └── b.txt (5 bytes, D2)",
       OutLine.entry "  └── fileA.3mf (100 bytes, D1)"] :=
  ⟨printTree_one_level,
   fun l => ⟨List.sorted_insertionSort _ l, List.perm_insertionSort _ l⟩,
   fun fe => ⟨List.sorted_insertionSort _ fe, List.perm_insertionSort _ fe⟩,
   lastPre_ne_indent,
   by decide,
   by decide⟩
